import Mathlib

/-!
Shallow embedding of `src/app.py` (a pandas/streamlit intron-filter pipeline).

Strings are modelled through `List Char`; pandas tables are modelled as lists
of records; a Python exception is modelled as `Except.error`.
-/

set_option autoImplicit false

namespace IntronApp

/-! ### Python string primitives used by `app.py` -/

/-- The whitespace characters stripped by Python's `str.strip()`. -/
def pyWs (c : Char) : Bool :=
  c == ' ' || c == '\t' || c == '\n' || c == '\x0d' || c == '\x0b' || c == '\x0c'

/-- Python `str.strip()`: drop leading and trailing whitespace. -/
def stripChars (l : List Char) : List Char :=
  ((l.dropWhile pyWs).reverse.dropWhile pyWs).reverse

/-- Python `str.strip('"')`: drop all leading and trailing double quotes. -/
def stripQuoteChars (l : List Char) : List Char :=
  ((l.dropWhile (· == '"')).reverse.dropWhile (· == '"')).reverse

/-- Python `str.split(sep)` for a one-character separator: no merging of
separators, empty pieces are kept (`"".split(";") == [""]`). -/
def splitOnChar (sep : Char) : List Char → List (List Char)
  | [] => [[]]
  | c :: t =>
    if c = sep then [] :: splitOnChar sep t
    else
      match splitOnChar sep t with
      | [] => [[c]]
      | h :: r => (c :: h) :: r

/-- Python `str.split(" ", 1)`: cut at the first space; `none` when the string
has no space (where Python's 2-element unpacking raises `ValueError`). -/
def splitFirstSpace : List Char → Option (List Char × List Char)
  | [] => none
  | c :: t =>
    if c = ' ' then some ([], t)
    else (splitFirstSpace t).map (fun p => (c :: p.1, p.2))

/-! ### Attribute Parser (`parse_attributes`, app.py lines 16-22) -/

/-- Python dict assignment `d[k] = v`: overwrite the value in place when the
key is present, append otherwise (insertion order is preserved). -/
def dictUpdate : List (String × String) → String → String → List (String × String)
  | [], k, v => [(k, v)]
  | (a, b) :: t, k, v =>
    if a = k then (a, v) :: t else (a, b) :: dictUpdate t k v

/-- Python `d.get(k, default)`. -/
def dictGet (d : List (String × String)) (k dflt : String) : String :=
  (d.lookup k).getD dflt

/-- The loop body of `parse_attributes`: walk the `;`-separated segments in
order, skip whitespace-only segments, raise on a segment with no space. -/
def processSegments : List (List Char) → List (String × String) → Except String (List (String × String))
  | [], d => .ok d
  | it :: rest, d =>
    if stripChars it = [] then processSegments rest d
    else
      match splitFirstSpace (stripChars it) with
      | none => .error "not enough values to unpack"
      | some (k, v) =>
        processSegments rest (dictUpdate d (String.mk k) (String.mk (stripQuoteChars v)))

/-- `parse_attributes(attr_str)`: `attr_str.strip().split(";")`, then for each
non-blank segment `key, val = item.strip().split(" ", 1)` and
`attrs[key] = val.strip('"')`. -/
def parse_attributes (attr : String) : Except String (List (String × String)) :=
  processSegments (splitOnChar ';' (stripChars attr.toList)) []

/-- Spec-level view of one segment: the `(key, value)` pair it parses to, or
`none` for a blank or malformed segment. -/
def parseSegment (it : List Char) : Option (String × String) :=
  if stripChars it = [] then none
  else
    (splitFirstSpace (stripChars it)).map
      (fun p => (String.mk p.1, String.mk (stripQuoteChars p.2)))

/-- All `(key, value)` pairs of an attribute string, in segment order. -/
def attrPairs (attr : String) : List (String × String) :=
  (splitOnChar ';' (stripChars attr.toList)).filterMap parseSegment

/-! ### Annotation Reader (`read_gtf`, app.py lines 6-13)

`pd.read_csv(f, sep="\t", comment="#", names=cols, low_memory=False)` with the
nine fixed GTF column names.  Behaviour modelled from pandas:
* a `#` truncates its line; lines that are empty (after truncation) are skipped;
* fields are split on tabs and bound to the names positionally; a line with
  fewer than nine fields leaves the trailing columns missing (NaN) — it is not
  an error; a line with more than nine fields has its extra *leading* fields
  promoted to the index (the index is never used downstream, so it is dropped);
* each column's dtype is inferred over the whole column: a column whose present
  cells are all integer literals becomes integral, any other column keeps its
  cells as raw strings (fractional/scientific float columns are outside the
  inputs this development exercises); missing cells are NaN either way.
The `.gz` branch only decompresses; both branches then parse the same text, so
the model takes the already-decoded text and the file name. -/

/-- A pandas cell: an integer, a raw string, or a missing value (NaN). -/
inductive PdVal where
  | int (n : Int)
  | str (s : String)
  | nan
  deriving DecidableEq, Repr

/-- One row of the 9-column GTF frame produced by `read_gtf`. -/
structure GtfRow where
  seqname : PdVal
  source : PdVal
  feature : PdVal
  start : PdVal
  end_ : PdVal
  score : PdVal
  strand : PdVal
  frame : PdVal
  attribute_ : PdVal
  deriving DecidableEq, Repr

/-- Digits-only numeral value. -/
def digitsVal (l : List Char) : Option Nat :=
  if l ≠ [] ∧ l.all Char.isDigit then
    some (l.foldl (fun a c => a * 10 + (c.toNat - 48)) 0)
  else none

/-- An optionally signed integer literal, as the pandas tokenizer accepts. -/
def parseIntOpt : List Char → Option Int
  | '-' :: t => (digitsVal t).map (fun n => -(n : Int))
  | '+' :: t => (digitsVal t).map (fun n => (n : Int))
  | t => (digitsVal t).map (fun n => (n : Int))

/-- The data lines `read_csv` keeps: truncate at `#`, drop lines left empty. -/
def keptLines (text : String) : List (List Char) :=
  ((splitOnChar '\n' text.toList).map (fun l => l.takeWhile (fun c => c ≠ '#'))).filter
    (fun l => l ≠ [])

/-- Align a line's tab-separated fields with the nine column names: extra
leading fields become the (dropped) index, missing trailing fields are NaN. -/
def lineCells (l : List Char) : List (Option (List Char)) :=
  let fs := splitOnChar '\t' l
  let fs := if fs.length ≤ 9 then fs else fs.drop (fs.length - 9)
  (List.range 9).map (fun j => fs.get? j)

/-- Column dtype inference: all present cells integer literals → integer
column; otherwise the present cells stay strings.  Missing cells are NaN. -/
def inferColumn (cells : List (Option (List Char))) : List PdVal :=
  if cells.all (fun c => match c with
      | none => true
      | some s => (parseIntOpt s).isSome) then
    cells.map (fun c => match c with
      | none => PdVal.nan
      | some s => match parseIntOpt s with
        | some n => PdVal.int n
        | none => PdVal.str (String.mk s))
  else
    cells.map (fun c => match c with
      | none => PdVal.nan
      | some s => PdVal.str (String.mk s))

/-- `read_gtf(file)`: parse the (decompressed) text of the annotation stream
into the 9-column frame.  The file name only selects the gzip branch, which
affects decompression, not parsing. -/
def read_gtf (name : String) (text : String) : List GtfRow :=
  let rows := (keptLines text).map lineCells
  let col := fun (j : Nat) => inferColumn (rows.map (fun r => (r.get? j).join))
  let c0 := col 0
  let c1 := col 1
  let c2 := col 2
  let c3 := col 3
  let c4 := col 4
  let c5 := col 5
  let c6 := col 6
  let c7 := col 7
  let c8 := col 8
  let _ := name
  (List.range rows.length).map (fun i =>
    { seqname := (c0.get? i).getD .nan
      source := (c1.get? i).getD .nan
      feature := (c2.get? i).getD .nan
      start := (c3.get? i).getD .nan
      end_ := (c4.get? i).getD .nan
      score := (c5.get? i).getD .nan
      strand := (c6.get? i).getD .nan
      frame := (c7.get? i).getD .nan
      attribute_ := (c8.get? i).getD .nan })

/-! ### Intron Deriver (`extract_introns`, app.py lines 25-43)

The function receives the DataFrame of exon rows, **assigns two new columns to
it in place** (`exons["attributes"] = ...`, `exons["transcript_id"] = ...`),
then builds the intron records.  The row type carries the two assigned columns
as `Option` fields (`none` = column absent); the function returns both the
mutated input table and the intron table, so the in-place effect is explicit. -/

/-- One row of the exon DataFrame.  `attributes` and `transcript_id` are the
columns `extract_introns` assigns; a freshly read table has them `none`. -/
structure ExonRow where
  seqname : String
  source : String
  feature : String
  start : Int
  end_ : Int
  score : String
  strand : String
  frame : String
  attribute_ : String
  attributes : Option (List (String × String)) := none
  transcript_id : Option String := none
  deriving DecidableEq, Repr

/-- A derived intron record (one dict of `intron_records`). -/
structure Intron where
  transcript_id : String
  seqname : String
  start : Int
  end_ : Int
  strand : String
  deriving DecidableEq, Repr

/-- The per-row effect of the two column assignments: parse the attribute
string (propagating its exception) and read `transcript_id` with default
`"unknown"`. -/
def tagExon (e : ExonRow) : Except String ExonRow :=
  match parse_attributes e.attribute_ with
  | .error m => .error m
  | .ok d =>
    .ok { e with attributes := some d, transcript_id := some (dictGet d "transcript_id" "unknown") }

/-- The two column assignments over the whole table, in row order; the first
raising row aborts (as `Series.apply` does). -/
def tagExons : List ExonRow → Except String (List ExonRow)
  | [] => .ok []
  | e :: t =>
    match tagExon e with
    | .error m => .error m
    | .ok e' =>
      match tagExons t with
      | .error m => .error m
      | .ok t' => .ok (e' :: t')

/-- Stable insertion placing `e` before the first row of no smaller `start`;
models `sort_values("start")` ascending. -/
def insertByStart (e : ExonRow) : List ExonRow → List ExonRow
  | [] => [e]
  | x :: t => if e.start ≤ x.start then e :: x :: t else x :: insertByStart e t

/-- `group.sort_values("start")` (ascending sort by the `start` column). -/
def sortByStart : List ExonRow → List ExonRow
  | [] => []
  | x :: t => insertByStart x (sortByStart t)

/-- Sorted insertion of a group key, dropping duplicates. -/
def insertKey (k : String) : List String → List String
  | [] => [k]
  | x :: t =>
    if k = x then x :: t
    else if k < x then k :: x :: t
    else x :: insertKey k t

/-- The keys of `groupby("transcript_id")` in the order pandas iterates them:
sorted ascending, each once. -/
def groupKeys (rows : List ExonRow) : List String :=
  rows.foldl (fun acc e => insertKey (e.transcript_id.getD "unknown") acc) []

/-- `list(zip(group.start, group.end))` for a sorted group. -/
def groupCoords (g : List ExonRow) : List (Int × Int) :=
  g.map (fun e => (e.start, e.end_))

/-- The body of the `for tid, group in exons.groupby(...)` loop for one group:
sort by `start`, pair adjacent `(start, end)` coordinates, emit
`(prev.end + 1, next.start - 1)` when non-empty; `seqname`/`strand` come from
`group.iloc[0]` of the *sorted* group. -/
def intronsOfGroup (tid : String) (g : List ExonRow) : List Intron :=
  match sortByStart g with
  | [] => []
  | first :: rest =>
    ((groupCoords (first :: rest)).zip (groupCoords (first :: rest)).tail).filterMap (fun c =>
      if c.2.1 - 1 ≥ c.1.2 + 1 then
        some { transcript_id := tid, seqname := first.seqname,
               start := c.1.2 + 1, end_ := c.2.1 - 1, strand := first.strand }
      else none)

/-- `extract_introns(exons)`: assign the two columns in place, group by
`transcript_id`, and collect the intron records group by group.  Returns the
mutated exon table together with the intron table. -/
def extract_introns (exons : List ExonRow) : Except String (List ExonRow × List Intron) :=
  match tagExons exons with
  | .error m => .error m
  | .ok tagged =>
    .ok (tagged, (groupKeys tagged).flatMap (fun k =>
      intronsOfGroup k (tagged.filter (fun e => e.transcript_id == some k))))

/-! ### Region Overlap Matcher (`overlaps` / `introns_in_brain_regions`,
app.py lines 46-64) -/

/-- One row of `brain_regions` (columns `seqname, source, start, end` of the
non-exon rows of the region annotation). -/
structure Region where
  seqname : String
  source : String
  start : Int
  end_ : Int
  deriving DecidableEq, Repr

/-- A region-matched intron row: the intron's dict extended with the matched
region's source/start/end. -/
structure MatchedRow where
  transcript_id : String
  seqname : String
  start : Int
  end_ : Int
  strand : String
  brain_region_source : String
  brain_region_start : Int
  brain_region_end : Int
  deriving DecidableEq, Repr

/-- `overlaps(a_start, a_end, b_start, b_end)`. -/
def overlaps (a_start a_end b_start b_end : Int) : Bool :=
  decide (max a_start b_start ≤ min a_end b_end)

/-- The dict `{**intron.to_dict(), "brain_region_source": ..., ...}`. -/
def mkMatched (i : Intron) (r : Region) : MatchedRow :=
  { transcript_id := i.transcript_id, seqname := i.seqname, start := i.start,
    end_ := i.end_, strand := i.strand, brain_region_source := r.source,
    brain_region_start := r.start, brain_region_end := r.end_ }

/-- `introns_in_brain_regions(introns, brain_regions)`: for each intron filter
the region table by equal `seqname` and `overlaps`, and append one result row
per matching region. -/
def introns_in_brain_regions (introns : List Intron) (brain_regions : List Region) : List MatchedRow :=
  introns.foldl
    (fun acc i =>
      (brain_regions.filter (fun r =>
          r.seqname == i.seqname && overlaps i.start i.end_ r.start r.end_)).foldl
        (fun acc2 r => acc2 ++ [mkMatched i r]) acc)
    []

/-! ### Reference Join (`pd.merge(..., on=["seqname","start","end"],
how="inner")`, app.py lines 95-100) -/

/-- A known-intron row: the three key columns plus pass-through extras. -/
structure Known where
  seqname : String
  start : Int
  end_ : Int
  extra : List (String × String) := []
  deriving DecidableEq, Repr

/-- `pd.merge(known_introns, introns_with_brain, on=["seqname","start","end"],
how="inner")`.  An inner merge keeps the order of the left keys; each output
row pairs a left row with a right row whose key triple is equal. -/
def mergeInner (known : List Known) (matched : List MatchedRow) : List (Known × MatchedRow) :=
  known.flatMap (fun k =>
    (matched.filter (fun m =>
        m.seqname == k.seqname && m.start == k.start && m.end_ == k.end_)).map
      (fun m => (k, m)))

/-! ### The pipeline (`main`, app.py lines 74-106)

Composition of the stages on the three input streams.  Column dtypes are
bridged to the record types the downstream stages read: `seqname`, `strand`
and the carried columns are rendered as strings, `start`/`end` must be
integer-typed and the attribute column string-typed — any other dtype would
make `extract_introns`/`overlaps` raise a `TypeError` in Python, modelled as
`Except.error`. -/

/-- A carried column value as a string (its repr for non-string dtypes). -/
def pdShow : PdVal → String
  | .str s => s
  | .int n => toString n
  | .nan => "nan"

/-- A coordinate column cell, which downstream arithmetic needs integral. -/
def pdInt : PdVal → Except String Int
  | .int n => .ok n
  | .str s => .error ("unsupported operand type for coordinate " ++ s)
  | .nan => .error "unsupported operand type for coordinate nan"

/-- The attribute column cell, which `parse_attributes` needs to be a string. -/
def pdStr : PdVal → Except String String
  | .str s => .ok s
  | .int n => .error ("attribute object has no strip: " ++ toString n)
  | .nan => .error "attribute object has no strip: nan"

/-- Bridge one row of the genome frame to the exon-row record. -/
def gtfRowToExon (r : GtfRow) : Except String ExonRow :=
  match pdInt r.start, pdInt r.end_, pdStr r.attribute_ with
  | .ok s, .ok e, .ok a =>
    .ok { seqname := pdShow r.seqname, source := pdShow r.source,
          feature := pdShow r.feature, start := s, end_ := e,
          score := pdShow r.score, strand := pdShow r.strand,
          frame := pdShow r.frame, attribute_ := a }
  | .error m, _, _ => .error m
  | _, .error m, _ => .error m
  | _, _, .error m => .error m

/-- Bridge one row of the region frame to the four selected region columns. -/
def gtfRowToRegion (r : GtfRow) : Except String Region :=
  match pdInt r.start, pdInt r.end_ with
  | .ok s, .ok e =>
    .ok { seqname := pdShow r.seqname, source := pdShow r.source, start := s, end_ := e }
  | .error m, _ => .error m
  | _, .error m => .error m

/-- Sequence a list of fallible conversions, aborting at the first error. -/
def exceptMap {α β : Type} (f : α → Except String β) : List α → Except String (List β)
  | [] => .ok []
  | x :: t =>
    match f x with
    | .error m => .error m
    | .ok y =>
      match exceptMap f t with
      | .error m => .error m
      | .ok t' => .ok (y :: t')

/-- The processing block of `main` (app.py lines 74-100): read the genome
annotation, keep the exon rows, derive introns, read the region annotation,
keep the non-exon rows' four columns, match introns against regions, and
inner-merge with the known-intron table on `(seqname, start, end)`. -/
def runPipeline (gtfName gtfText brainName brainText : String) (known : List Known) :
    Except String (List (Known × MatchedRow)) :=
  let gtf := read_gtf gtfName gtfText
  let exonRows := gtf.filter (fun r => r.feature == PdVal.str "exon")
  match exceptMap gtfRowToExon exonRows with
  | .error m => .error m
  | .ok exons =>
    match extract_introns exons with
    | .error m => .error m
    | .ok (_, introns) =>
      let brain := read_gtf brainName brainText
      let regionRows := brain.filter (fun r => !(r.feature == PdVal.str "exon"))
      match exceptMap gtfRowToRegion regionRows with
      | .error m => .error m
      | .ok brain_regions =>
        .ok (mergeInner known (introns_in_brain_regions introns brain_regions))

/-! ### Spec-level predicates (from the specification's words) -/

/-- The spec's overlap-join condition: the region's `seqname` equals the
intron's and `max(intron.start, region.start) <= min(intron.end, region.end)`
(closed intervals). -/
def regionMatchSpec (i : Intron) (r : Region) : Prop :=
  r.seqname = i.seqname ∧ max i.start r.start ≤ min i.end_ r.end_

instance (i : Intron) (r : Region) : Decidable (regionMatchSpec i r) := by
  unfold regionMatchSpec; infer_instance

/-- The join-key equality of the reference join: exact equality on the triple
`(seqname, start, end)`. -/
def keyMatchSpec (k : Known) (m : MatchedRow) : Prop :=
  k.seqname = m.seqname ∧ k.start = m.start ∧ k.end_ = m.end_

instance (k : Known) (m : MatchedRow) : Decidable (keyMatchSpec k m) := by
  unfold keyMatchSpec; infer_instance

/-- The table-level frame condition of intron derivation: the output row keeps
every original column of the input row and carries the two new columns. -/
def rowPreserved (e t : ExonRow) : Prop :=
  t.seqname = e.seqname ∧ t.source = e.source ∧ t.feature = e.feature ∧
  t.start = e.start ∧ t.end_ = e.end_ ∧ t.score = e.score ∧
  t.strand = e.strand ∧ t.frame = e.frame ∧ t.attribute_ = e.attribute_ ∧
  (∃ d, t.attributes = some d) ∧ (∃ s, t.transcript_id = some s)

/-! ### Concrete tables used by the example-based theorems -/

/-- Shorthand for a 9-column exon row of the genome annotation. -/
def mkExon (seq : String) (s e : Int) (strand attr : String) : ExonRow :=
  { seqname := seq, source := "src", feature := "exon", start := s, end_ := e,
    score := ".", strand := strand, frame := ".", attribute_ := attr }

/-- The spec's worked example: one transcript with exons
`[(1,100),(201,300),(401,500)]`. -/
def exonsC2 : List ExonRow :=
  [ mkExon "chr1" 1 100 "+" "transcript_id \"t1\";",
    mkExon "chr1" 201 300 "+" "transcript_id \"t1\";",
    mkExon "chr1" 401 500 "+" "transcript_id \"t1\";" ]

def intronA : Intron :=
  { transcript_id := "t1", seqname := "chr1", start := 101, end_ := 200, strand := "+" }

def intronB : Intron :=
  { transcript_id := "t1", seqname := "chr1", start := 301, end_ := 400, strand := "+" }

/-- `exonsC2` after the two in-place column assignments. -/
def exonsC2Tagged : List ExonRow :=
  exonsC2.map (fun e =>
    { e with attributes := some [("transcript_id", "t1")], transcript_id := some "t1" })

/-- The spec's touching-exon edge case: exons `[(1,100),(101,200)]`. -/
def exonsTouching : List ExonRow :=
  [ mkExon "chr1" 1 100 "+" "transcript_id \"t1\";",
    mkExon "chr1" 101 200 "+" "transcript_id \"t1\";" ]

/-! ### General lemmas -/

theorem foldl_append_map {α β : Type} (f : α → β) (l : List α) (acc : List β) :
    l.foldl (fun a x => a ++ [f x]) acc = acc ++ l.map f := by
  induction l generalizing acc with
  | nil => simp
  | cons x t ih => simp [List.foldl_cons, ih]

theorem ibr_eq_flatMap (ins : List Intron) (rs : List Region) :
    introns_in_brain_regions ins rs =
      ins.flatMap (fun i =>
        (rs.filter (fun r =>
            r.seqname == i.seqname && overlaps i.start i.end_ r.start r.end_)).map
          (mkMatched i)) := by
  unfold introns_in_brain_regions
  have h : ∀ (l : List Intron) (acc : List MatchedRow),
      l.foldl (fun acc i =>
        (rs.filter (fun r =>
            r.seqname == i.seqname && overlaps i.start i.end_ r.start r.end_)).foldl
          (fun acc2 r => acc2 ++ [mkMatched i r]) acc) acc
      = acc ++ l.flatMap (fun i =>
          (rs.filter (fun r =>
              r.seqname == i.seqname && overlaps i.start i.end_ r.start r.end_)).map
            (mkMatched i)) := by
    intro l
    induction l with
    | nil => simp
    | cons i t ih =>
      intro acc
      rw [List.foldl_cons, foldl_append_map, ih, List.flatMap_cons, List.append_assoc]
  simpa using h ins []

theorem code_overlap_eq_spec (i : Intron) (r : Region) :
    (r.seqname == i.seqname && overlaps i.start i.end_ r.start r.end_)
      = decide (regionMatchSpec i r) := by
  by_cases h : r.seqname = i.seqname <;> simp [h, overlaps, regionMatchSpec]

/-! ### C1 and C2 -/

/-- C1: the Region Overlap Matcher emits exactly one row per
(intron, region) pair whose `seqname`s agree and whose closed intervals
overlap (`max(starts) <= min(ends)`), carrying the region's
source/start/end; an intron matching N regions yields exactly N rows, one
matching zero regions yields zero rows. -/
theorem region_overlap_matcher_fanout (ins : List Intron) (rs : List Region) :
    introns_in_brain_regions ins rs =
      ins.flatMap (fun i =>
        (rs.filter (fun r => decide (regionMatchSpec i r))).map (mkMatched i)) ∧
    (introns_in_brain_regions ins rs).length =
      (ins.map (fun i => rs.countP (fun r => decide (regionMatchSpec i r)))).sum := by
  have he : introns_in_brain_regions ins rs =
      ins.flatMap (fun i =>
        (rs.filter (fun r => decide (regionMatchSpec i r))).map (mkMatched i)) := by
    rw [ibr_eq_flatMap]
    simp only [code_overlap_eq_spec]
  refine ⟨he, ?_⟩
  rw [he, List.length_flatMap]
  have hfun : (List.length ∘ fun i =>
      (rs.filter (fun r => decide (regionMatchSpec i r))).map (mkMatched i))
      = fun i => rs.countP (fun r => decide (regionMatchSpec i r)) := by
    funext i
    simp [Function.comp, List.countP_eq_length_filter]
  rw [hfun]

/-- C2: on a transcript with exons `[(1,100),(201,300),(401,500)]` the Intron
Deriver produces exactly the introns `[(101,200),(301,400)]`, in ascending
genomic order. -/
theorem intron_derivation_example :
    Except.map Prod.snd (extract_introns exonsC2) = .ok [intronA, intronB] := rfl

/-! ### C4: the reference join -/

/-- C4: the final result is the inner equi-join of the known-intron table and
the region-matched table on exactly `(seqname, start, end)` with exact
equality: a row is in the output iff it pairs a known row and a matched row
with equal key triples, and a known row with no matching triple contributes
zero rows (the merge total-functionally returns the smaller, possibly empty,
table). -/
theorem reference_join_exact_triple (known : List Known) (matched : List MatchedRow) :
    (∀ p, p ∈ mergeInner known matched ↔
      ∃ k ∈ known, ∃ m ∈ matched, keyMatchSpec k m ∧ p = (k, m)) ∧
    (∀ k ∈ known, (∀ m ∈ matched, ¬ keyMatchSpec k m) →
      ∀ m, (k, m) ∉ mergeInner known matched) := by
  have hmem : ∀ p, p ∈ mergeInner known matched ↔
      ∃ k ∈ known, ∃ m ∈ matched, keyMatchSpec k m ∧ p = (k, m) := by
    intro p
    unfold mergeInner
    simp only [List.mem_flatMap, List.mem_map, List.mem_filter, keyMatchSpec]
    constructor
    · rintro ⟨k, hk, m, ⟨hm, hkey⟩, rfl⟩
      simp only [Bool.and_eq_true, beq_iff_eq] at hkey
      exact ⟨k, hk, m, hm, ⟨hkey.1.1.symm, hkey.1.2.symm, hkey.2.symm⟩, rfl⟩
    · rintro ⟨k, hk, m, hm, ⟨h1, h2, h3⟩, rfl⟩
      exact ⟨k, hk, m, ⟨hm, by simp [h1.symm, h2.symm, h3.symm]⟩, rfl⟩
  refine ⟨hmem, ?_⟩
  intro k _ hnone m hm
  rw [hmem] at hm
  obtain ⟨k', _, m', hm', hkey, hp⟩ := hm
  obtain ⟨rfl, rfl⟩ : k' = k ∧ m' = m := by
    have h1 := congrArg Prod.fst hp
    have h2 := congrArg Prod.snd hp
    exact ⟨h1.symm, h2.symm⟩
  exact hnone m' hm' hkey

/-- A known-intron row and a matched row with different `start`. -/
def knownNoMatch : Known := { seqname := "chr1", start := 5, end_ := 10 }

def matchedOther : MatchedRow :=
  { transcript_id := "t1", seqname := "chr1", start := 6, end_ := 10, strand := "+",
    brain_region_source := "br", brain_region_start := 1, brain_region_end := 50 }

/-! ### Lemmas about intron derivation -/

theorem insertByStart_length (e : ExonRow) (l : List ExonRow) :
    (insertByStart e l).length = l.length + 1 := by
  induction l with
  | nil => rfl
  | cons x t ih =>
    by_cases h : e.start ≤ x.start <;> simp [insertByStart, h, ih]

theorem sortByStart_length (l : List ExonRow) : (sortByStart l).length = l.length := by
  induction l with
  | nil => rfl
  | cons x t ih => simp [sortByStart, insertByStart_length, ih]

/-- Every intron a group emits has its fields filled from the sorted group's
head, carries the group key, and has nonnegative length. -/
theorem mem_intronsOfGroup {tid : String} {g : List ExonRow} {i : Intron}
    (h : i ∈ intronsOfGroup tid g) :
    ∃ first rest, sortByStart g = first :: rest ∧
      i.transcript_id = tid ∧ i.seqname = first.seqname ∧ i.strand = first.strand ∧
      i.start ≤ i.end_ := by
  unfold intronsOfGroup at h
  cases hs : sortByStart g with
  | nil => rw [hs] at h; simp at h
  | cons first rest =>
    rw [hs] at h
    refine ⟨first, rest, rfl, ?_⟩
    simp only [List.mem_filterMap] at h
    obtain ⟨c, _, hc⟩ := h
    by_cases hle : c.2.1 - 1 ≥ c.1.2 + 1
    · rw [if_pos hle] at hc
      obtain rfl := Option.some.injEq _ _ ▸ hc
      simp_all
    · rw [if_neg hle] at hc
      exact absurd hc (by simp)

/-- Unpacking a successful `extract_introns`: the returned table is the tagged
input and the introns are collected group by group over the sorted keys. -/
theorem extract_introns_ok {exons tbl : List ExonRow} {res : List Intron}
    (h : extract_introns exons = .ok (tbl, res)) :
    tagExons exons = .ok tbl ∧
    res = (groupKeys tbl).flatMap (fun k =>
      intronsOfGroup k (tbl.filter (fun e => e.transcript_id == some k))) := by
  unfold extract_introns at h
  cases ht : tagExons exons with
  | error m => rw [ht] at h; exact absurd h (by simp)
  | ok tagged =>
    rw [ht] at h
    simp only [Except.ok.injEq, Prod.mk.injEq] at h
    obtain ⟨rfl, rfl⟩ := h
    exact ⟨rfl, rfl⟩

/-! ### C3: intron invariants -/

/-- C3: every emitted intron satisfies `end >= start`; the touching exons
`[(1,100),(101,200)]` yield zero introns (the candidate `(101,100)` is
dropped, not an error); and a group of `n` exons yields at most `n - 1`
introns. -/
theorem intron_length_invariant :
    (∀ (exons tbl : List ExonRow) (res : List Intron),
      extract_introns exons = .ok (tbl, res) → ∀ i ∈ res, i.start ≤ i.end_) ∧
    Except.map Prod.snd (extract_introns exonsTouching) = .ok [] ∧
    (∀ (tid : String) (g : List ExonRow), (intronsOfGroup tid g).length ≤ g.length - 1) := by
  refine ⟨?_, rfl, ?_⟩
  · intro exons tbl res h i hi
    obtain ⟨-, rfl⟩ := extract_introns_ok h
    rw [List.mem_flatMap] at hi
    obtain ⟨k, -, hik⟩ := hi
    obtain ⟨-, -, -, -, -, -, hle⟩ := mem_intronsOfGroup hik
    exact hle
  · intro tid g
    unfold intronsOfGroup
    cases hs : sortByStart g with
    | nil => simp
    | cons first rest =>
      refine le_trans (List.length_filterMap_le _ _) ?_
      have hlen : (groupCoords (first :: rest)).length = g.length := by
        have := sortByStart_length g
        rw [hs] at this
        simp only [groupCoords, List.length_map]
        exact this
      rw [List.length_zip, List.length_tail, hlen]
      omega

/-- A two-exon transcript whose single emitted intron backs the C3 witness. -/
def exonsGap : List ExonRow :=
  [ mkExon "chr1" 1 100 "+" "transcript_id \"t1\";",
    mkExon "chr1" 201 300 "+" "transcript_id \"t1\";" ]

def exonsGapTagged : List ExonRow :=
  exonsGap.map (fun e =>
    { e with attributes := some [("transcript_id", "t1")], transcript_id := some "t1" })

theorem intron_length_invariant_witness : intronA.start ≤ intronA.end_ :=
  intron_length_invariant.1 exonsGap exonsGapTagged [intronA] rfl intronA
    (List.mem_singleton.mpr rfl)

/-! ### C5: where the emitted `seqname`/`strand` come from -/

/-- A transcript whose first *encountered* exon (start 201, strand `-`) is not
its first exon in genomic order (start 1, strand `+`). -/
def exonLateMinus : ExonRow := mkExon "chr1" 201 300 "-" "transcript_id \"t1\";"

def exonEarlyPlus : ExonRow := mkExon "chr1" 1 100 "+" "transcript_id \"t1\";"

def intronMixed : Intron :=
  { transcript_id := "t1", seqname := "chr1", start := 101, end_ := 200, strand := "+" }

/-- C5 counterexample: with encounter order `[(201,300,"-"), (1,100,"+")]` the
emitted intron's strand is `"+"`, the strand of the *post-sort* first exon —
not the `"-"` of the first exon in original encounter order, refuting the
claim as stated. -/
theorem strand_encounter_order_counterexample :
    Except.map Prod.snd (extract_introns [exonLateMinus, exonEarlyPlus]) = .ok [intronMixed] ∧
    intronMixed.strand ≠ exonLateMinus.strand :=
  ⟨rfl, by decide⟩

/-- C5 amended: the `seqname` and `strand` of each emitted intron are copied
from the first exon of the owning transcript *after sorting by start*
(post-sort index 0, genomic order), with no validation against the other
exons of the group. -/
theorem strand_copied_from_sorted_first (tid : String) (g : List ExonRow) (i : Intron)
    (h : i ∈ intronsOfGroup tid g) :
    ∃ first rest, sortByStart g = first :: rest ∧
      i.transcript_id = tid ∧ i.seqname = first.seqname ∧ i.strand = first.strand := by
  obtain ⟨first, rest, hs, h1, h2, h3, -⟩ := mem_intronsOfGroup h
  exact ⟨first, rest, hs, h1, h2, h3⟩

theorem strand_copied_from_sorted_first_witness :
    ∃ first rest, sortByStart [exonLateMinus, exonEarlyPlus] = first :: rest ∧
      intronMixed.transcript_id = "t1" ∧ intronMixed.seqname = first.seqname ∧
      intronMixed.strand = first.strand :=
  strand_copied_from_sorted_first "t1" [exonLateMinus, exonEarlyPlus] intronMixed (by decide)

theorem reference_join_exact_triple_witness :
    (knownNoMatch, matchedOther) ∉ mergeInner [knownNoMatch] [matchedOther] :=
  (reference_join_exact_triple [knownNoMatch] [matchedOther]).2 knownNoMatch
    (List.mem_singleton.mpr rfl) (by decide) matchedOther

/-! ### C6: what the Annotation Reader does with malformed lines -/

/-- A data line with only two tab-separated fields. -/
def shortLineText : String := "chr1\tsrc"

/-- The row `read_csv` builds for it: the seven missing columns are NaN. -/
def shortLineRow : GtfRow :=
  { seqname := .str "chr1", source := .str "src", feature := .nan, start := .nan,
    end_ := .nan, score := .nan, strand := .nan, frame := .nan, attribute_ := .nan }

/-- A 9-field line whose `start` field is not an integer literal. -/
def nonNumericText : String := "chr1\tsrc\tgene\tabc\t5\t.\t+\t.\tk \"v\";"

/-- Its row: the `start` column keeps the raw string, nothing fails. -/
def nonNumericRow : GtfRow :=
  { seqname := .str "chr1", source := .str "src", feature := .str "gene",
    start := .str "abc", end_ := .int 5, score := .str ".", strand := .str "+",
    frame := .str ".", attribute_ := .str "k \"v\";" }

/-- C6 counterexample: the reader does not fail on either malformed input — a
line with fewer than nine fields yields a record padded with missing (NaN)
values, and a non-integer `start` is kept as a string; no parse error is
reported and nothing aborts. -/
theorem annotation_reader_counterexample :
    read_gtf "genome.gtf" shortLineText = [shortLineRow] ∧ shortLineRow.start = .nan ∧
    read_gtf "genome.gtf" nonNumericText = [nonNumericRow] ∧ nonNumericRow.start = .str "abc" :=
  ⟨rfl, rfl, rfl, rfl⟩

/-- C6 amended: on a line with fewer than nine tab-separated fields the
Annotation Reader succeeds and fills the missing trailing columns with NaN,
and on a non-integer `start`/`end` field it succeeds and keeps the value as a
string; the operation is not aborted (whichever file name — compressed or not
— the stream came with). -/
theorem annotation_reader_pads_and_keeps_strings (name : String) :
    read_gtf name shortLineText = [shortLineRow] ∧
    read_gtf name nonNumericText = [nonNumericRow] :=
  ⟨rfl, rfl⟩

/-! ### C9: the in-place column assignments of `extract_introns` -/

/-- Tagging a row keeps the nine original columns and sets the two new ones. -/
theorem tagExon_preserves {e t : ExonRow} (h : tagExon e = .ok t) : rowPreserved e t := by
  unfold tagExon at h
  cases hp : parse_attributes e.attribute_ with
  | error m => rw [hp] at h; exact absurd h (by simp)
  | ok d =>
    rw [hp] at h
    simp only [Except.ok.injEq] at h
    subst h
    simp [rowPreserved]

theorem tagExons_preserves :
    ∀ {exons tbl : List ExonRow}, tagExons exons = .ok tbl →
      List.Forall₂ rowPreserved exons tbl := by
  intro exons
  induction exons with
  | nil =>
    intro tbl h
    unfold tagExons at h
    simp only [Except.ok.injEq] at h
    subst h
    exact List.Forall₂.nil
  | cons e t ih =>
    intro tbl h
    unfold tagExons at h
    cases he : tagExon e with
    | error m => rw [he] at h; exact absurd h (by simp)
    | ok e' =>
      rw [he] at h
      cases ht : tagExons t with
      | error m => rw [ht] at h; exact absurd h (by simp)
      | ok t' =>
        rw [ht] at h
        simp only [Except.ok.injEq] at h
        subst h
        exact List.Forall₂.cons (tagExon_preserves he) (ih ht)

/-- A plain freshly-read exon row (no `attributes`/`transcript_id` columns). -/
def exonFresh : ExonRow := mkExon "chr1" 1 100 "+" "transcript_id \"t1\";"

/-- The same row after `extract_introns` has assigned the two columns. -/
def exonFreshTagged : ExonRow :=
  { exonFresh with attributes := some [("transcript_id", "t1")], transcript_id := some "t1" }

/-- C9 counterexample: `extract_introns` hands back its input table *changed*
— the two column assignments are applied to the table it received, so the
post-call exon table differs from the pre-call one. -/
theorem exon_table_mutated_counterexample :
    extract_introns [exonFresh] = .ok ([exonFreshTagged], []) ∧ exonFreshTagged ≠ exonFresh :=
  ⟨rfl, by decide⟩

/-- C9 amended: `extract_introns` mutates the exon table it receives by
assigning the two new columns `attributes` and `transcript_id`; every original
column of every row, the row count and the row order are left unchanged (and
the later stages build fresh tables). -/
theorem exon_table_columns_preserved (exons tbl : List ExonRow) (res : List Intron)
    (h : extract_introns exons = .ok (tbl, res)) :
    tbl.length = exons.length ∧ List.Forall₂ rowPreserved exons tbl := by
  obtain ⟨ht, -⟩ := extract_introns_ok h
  have hf := tagExons_preserves ht
  exact ⟨hf.length_eq.symm, hf⟩

theorem exon_table_columns_preserved_witness :
    ([exonFreshTagged] : List ExonRow).length = ([exonFresh] : List ExonRow).length ∧
    List.Forall₂ rowPreserved [exonFresh] [exonFreshTagged] :=
  exon_table_columns_preserved [exonFresh] [exonFreshTagged] [] rfl

/-! ### C7: the Attribute Parser raises on a space-less segment -/

theorem splitFirstSpace_eq_none {l : List Char} (h : ' ' ∉ l) : splitFirstSpace l = none := by
  induction l with
  | nil => rfl
  | cons c t ih =>
    have hc : ¬(c = ' ') := fun e => h (e ▸ List.mem_cons_self c t)
    have ht : ' ' ∉ t := fun hm => h (List.mem_cons_of_mem c hm)
    simp [splitFirstSpace, hc, ih ht]

theorem stripChars_sublist (l : List Char) : (stripChars l).Sublist l := by
  unfold stripChars
  have h1 : (l.dropWhile pyWs).Sublist l := List.dropWhile_sublist _
  have h2 : ((l.dropWhile pyWs).reverse.dropWhile pyWs).Sublist (l.dropWhile pyWs).reverse :=
    List.dropWhile_sublist _
  have h3 := h2.reverse
  rw [List.reverse_reverse] at h3
  exact h3.trans h1

/-- If some segment strips to a non-blank string with no space, the segment
loop raises (whether at that segment or an earlier bad one). -/
theorem processSegments_error {items : List (List Char)}
    (h : ∃ it ∈ items, stripChars it ≠ [] ∧ splitFirstSpace (stripChars it) = none)
    (d : List (String × String)) :
    ∃ m, processSegments items d = .error m := by
  induction items generalizing d with
  | nil => simp at h
  | cons it rest ih =>
    obtain ⟨x, hx, hbad⟩ := h
    unfold processSegments
    by_cases hs : stripChars it = []
    · rw [if_pos hs]
      apply ih
      rcases List.mem_cons.mp hx with rfl | hx'
      · exact absurd hs hbad.1
      · exact ⟨x, hx', hbad⟩
    · rw [if_neg hs]
      cases hsp : splitFirstSpace (stripChars it) with
      | none => exact ⟨_, rfl⟩
      | some p =>
        cases p with
        | mk k v =>
          apply ih
          rcases List.mem_cons.mp hx with rfl | hx'
          · rw [hbad.2] at hsp; exact absurd hsp (by simp)
          · exact ⟨x, hx', hbad⟩

/-- C7: on any attribute string one of whose `;`-segments is non-blank (not
whitespace-only) yet contains no space character, `parse_attributes` raises
immediately — it neither skips the segment nor returns a partial mapping. -/
theorem attribute_segment_without_space_raises (attr : String) (seg : List Char)
    (hmem : seg ∈ splitOnChar ';' (stripChars attr.toList))
    (hne : stripChars seg ≠ [])
    (hnospace : ' ' ∉ seg) :
    ∃ m, parse_attributes attr = .error m := by
  unfold parse_attributes
  apply processSegments_error
  refine ⟨seg, hmem, hne, ?_⟩
  exact splitFirstSpace_eq_none (fun hsp => hnospace ((stripChars_sublist seg).subset hsp))

theorem attribute_segment_without_space_raises_witness :
    ∃ m, parse_attributes "gene_id" = .error m :=
  attribute_segment_without_space_raises "gene_id" "gene_id".toList
    (by decide) (by decide) (by decide)

/-! ### C10: later well-formed segments overwrite earlier ones -/

/-- `List.lookup` on a cons cell, in `if` form. -/
theorem lookup_cons_if (k a b : String) (t : List (String × String)) :
    List.lookup k ((a, b) :: t) = if k = a then some b else List.lookup k t := by
  by_cases h : k = a
  · simp [List.lookup_cons, h]
  · have hb : (k == a) = false := beq_eq_false_iff_ne.mpr h
    simp [List.lookup_cons, hb, h]

theorem lookup_dictUpdate (d : List (String × String)) (k v k' : String) :
    (dictUpdate d k v).lookup k' = if k' = k then some v else d.lookup k' := by
  induction d with
  | nil => simp [dictUpdate, lookup_cons_if]
  | cons p t ih =>
    cases p with
    | mk a b =>
      by_cases hak : a = k
      · subst hak
        rw [show dictUpdate ((a, b) :: t) a v = (a, v) :: t from by simp [dictUpdate],
          lookup_cons_if, lookup_cons_if]
        by_cases h : k' = a <;> simp [h]
      · simp only [dictUpdate, if_neg hak]
        rw [lookup_cons_if, lookup_cons_if, ih]
        by_cases h : k' = a
        · have hkk : ¬ k' = k := fun e => hak (h.symm.trans e)
          simp [h, hkk, hak]
        · simp [h]

theorem lookup_append (l₁ l₂ : List (String × String)) (k : String) :
    (l₁ ++ l₂).lookup k = ((l₁.lookup k).orElse fun _ => l₂.lookup k) := by
  induction l₁ with
  | nil => simp [Option.orElse]
  | cons p t ih =>
    cases p with
    | mk a b =>
      rw [List.cons_append, lookup_cons_if, lookup_cons_if, ih]
      by_cases h : k = a <;> simp [h, Option.orElse]

/-- The dict built by the segment loop binds each key to the value of its
last contributing segment, earlier bindings (from `d`) only surviving for
keys no segment binds. -/
theorem processSegments_ok_lookup :
    ∀ (items : List (List Char)) (d d' : List (String × String)),
      processSegments items d = .ok d' →
      ∀ k, d'.lookup k =
        (((items.filterMap parseSegment).reverse.lookup k).orElse fun _ => d.lookup k) := by
  intro items
  induction items with
  | nil =>
    intro d d' h k
    unfold processSegments at h
    simp only [Except.ok.injEq] at h
    subst h
    simp [Option.orElse]
  | cons it rest ih =>
    intro d d' h k
    unfold processSegments at h
    by_cases hs : stripChars it = []
    · rw [if_pos hs] at h
      have hseg : parseSegment it = none := by simp [parseSegment, hs]
      rw [List.filterMap_cons, hseg]
      exact ih d d' h k
    · rw [if_neg hs] at h
      cases hsp : splitFirstSpace (stripChars it) with
      | none => rw [hsp] at h; exact absurd h (by simp)
      | some p =>
        cases p with
        | mk k0 v0 =>
          rw [hsp] at h
          have hseg : parseSegment it =
              some (String.mk k0, String.mk (stripQuoteChars v0)) := by
            simp [parseSegment, hs, hsp]
          rw [List.filterMap_cons, hseg]
          have hrec := ih _ _ h k
          rw [hrec, List.reverse_cons, lookup_append, lookup_dictUpdate]
          cases hA : (rest.filterMap parseSegment).reverse.lookup k with
          | some v => simp [Option.orElse]
          | none =>
            rw [lookup_cons_if]
            by_cases hk : k = String.mk k0 <;> simp [hk, Option.orElse]

/-- C10: whenever the Attribute Parser succeeds, the mapping binds each key to
the value of that key's *last* occurrence among the well-formed segments
(later segments overwrite earlier ones), the values having their surrounding
double quotes stripped either way. -/
theorem attribute_last_occurrence_wins (attr : String) (d : List (String × String))
    (h : parse_attributes attr = .ok d) (k : String) :
    d.lookup k = (attrPairs attr).reverse.lookup k := by
  have hmain := processSegments_ok_lookup (splitOnChar ';' (stripChars attr.toList)) [] d h k
  rw [show (splitOnChar ';' (stripChars attr.toList)).filterMap parseSegment
      = attrPairs attr from rfl] at hmain
  rw [hmain]
  cases hA : (attrPairs attr).reverse.lookup k <;> simp [hA, Option.orElse, List.lookup]

/-- The duplicate-key example backing the C10 witness. -/
def dupAttr : String := "gene_id \"a\"; gene_id \"b\""

theorem attribute_last_occurrence_wins_witness :
    ([("gene_id", "b")] : List (String × String)).lookup "gene_id" =
      (attrPairs dupAttr).reverse.lookup "gene_id" :=
  attribute_last_occurrence_wins dupAttr [("gene_id", "b")] rfl "gene_id"

/-! ### C8: the pipeline is a pure function of its three input streams -/

/-- C8: two invocations given equal genome annotation, region annotation and
known-intron inputs produce equal results — the pipeline reads nothing but
its three inputs and carries no state across invocations (it is the total
function `runPipeline`, so the result table, and hence any byte rendering of
it, is identical including row order). -/
theorem pipeline_deterministic
    (gn₁ gt₁ bn₁ bt₁ : String) (k₁ : List Known)
    (gn₂ gt₂ bn₂ bt₂ : String) (k₂ : List Known)
    (h₁ : gn₁ = gn₂) (h₂ : gt₁ = gt₂) (h₃ : bn₁ = bn₂) (h₄ : bt₁ = bt₂) (h₅ : k₁ = k₂) :
    runPipeline gn₁ gt₁ bn₁ bt₁ k₁ = runPipeline gn₂ gt₂ bn₂ bt₂ k₂ := by
  subst h₁ h₂ h₃ h₄ h₅
  rfl

/-- The spec's end-to-end scenario: a two-exon transcript, one region over the
derived intron, and that intron's triple in the known list. -/
def genomeText : String :=
  "chr1\tsrc\texon\t1\t100\t.\t+\t.\ttranscript_id \"t1\";\nchr1\tsrc\texon\t201\t300\t.\t+\t.\ttranscript_id \"t1\";\n"

def brainText : String :=
  "chr1\tbr\tregion\t50\t150\t.\t.\t.\tname \"amygdala\";\n"

def knownList : List Known := [{ seqname := "chr1", start := 101, end_ := 200 }]

theorem pipeline_deterministic_witness :
    runPipeline "genome.gtf" genomeText "brain.gtf" brainText knownList =
      runPipeline "genome.gtf" genomeText "brain.gtf" brainText knownList :=
  pipeline_deterministic "genome.gtf" genomeText "brain.gtf" brainText knownList
    "genome.gtf" genomeText "brain.gtf" brainText knownList rfl rfl rfl rfl rfl

end IntronApp

